import Mathlib

/-!
Verification of the `routes-express` adapter: a shallow embedding of the
module that bridges `@panth977/routes` endpoint builds onto an Express
transport.  Response side effects (`res.setHeader`, `res.status`,
`res.write`, `res.json`, `res.send`, `res.end`, `res.flushHeaders`,
`res.flush`) are modelled as an explicit trace of wire actions; the
per-request `closed` cancellation flag and the lifecycle hooks
(`onStatusChange` / `onExecution` / `onResponse` / `onComplete`) are
modelled as a step machine over events; the class-based contexts
(`ExpressHttpContext`, `ExpressSseContext`), `pathParser` and `serve` are
modelled as pure functions producing the same action traces.
-/

deriving instance DecidableEq for Except

/-- Model of a JSON-ish body value handed to `res.json` / `res.send`. -/
inductive Jval
| str (s : String)
| num (n : Int)
| bool (b : Bool)
| null
deriving Repr, DecidableEq

/-- One wire-level side effect performed on the Express `Response` handle. -/
inductive ResAction
| setHeader (name val : String)
| flushHeaders
| status (n : Nat)
| write (s : String)
| json (v : Jval)
| send (v : Jval)
| flush
| resEnd
deriving Repr, DecidableEq

/-- Is this action a `res.setHeader` call? -/
def ResAction.isSetHeader : ResAction → Bool
| ResAction.setHeader _ _ => true
| _ => false

/-- Is this action a `res.status` call (a status-line write)? -/
def ResAction.isStatus : ResAction → Bool
| ResAction.status _ => true
| _ => false

/-- Is this action a raw `res.write` (a stream frame write)? -/
def ResAction.isWrite : ResAction → Bool
| ResAction.write _ => true
| _ => false

/-- Lower-case hex digit, as produced by JavaScript's `JSON.stringify`
escape sequences. -/
def hexDigit (n : Nat) : Char :=
  if n < 10 then Char.ofNat (48 + n) else Char.ofNat (87 + n)

/-- Four lower-case hex digits of a code point below `0x10000`. -/
def hex4 (n : Nat) : List Char :=
  [hexDigit (n / 4096 % 16), hexDigit (n / 256 % 16), hexDigit (n / 16 % 16),
   hexDigit (n % 16)]

/-- Escaping of one character inside a JSON string literal, following
`JSON.stringify` for strings. -/
def jsonEscapeChar (c : Char) : List Char :=
  if c = '"' then ['\\', '"']
  else if c = '\\' then ['\\', '\\']
  else if c = '\x08' then ['\\', 'b']
  else if c = '\t' then ['\\', 't']
  else if c = '\n' then ['\\', 'n']
  else if c = '\x0c' then ['\\', 'f']
  else if c = '\r' then ['\\', 'r']
  else if c.toNat < 32 then '\\' :: 'u' :: hex4 c.toNat
  else [c]

/-- Model of JavaScript's `JSON.stringify` applied to a string value. -/
def jsonStr (s : String) : String :=
  String.mk ('"' :: (s.data.flatMap jsonEscapeChar ++ ['"']))

/-- Model of JavaScript's `toLowerCase` on ASCII strings (header names and
media types in this module are ASCII). -/
def lowerStr (s : String) : String :=
  String.mk (s.data.map Char.toLower)

/-- First binding for a key in a JavaScript-object-like association list
(`object[key]` lookup; JS object keys are unique, so first match). -/
def lookupHdr : List (String × String) → String → Option String
| [], _ => none
| (k, v) :: rest, x => if k = x then some v else lookupHdr rest x

namespace Lc

/-- Endpoint kind tag of a route build (`build.endpoint`). -/
inductive Endpoint
| http
| sse
deriving Repr, DecidableEq

/-- Shape returned by the user-supplied `onError` normalizer in the
lifecycle variants: `{ status, headers, body }`. -/
structure OnErrorResult where
  status : Nat
  headers : List (String × String)
  body : Jval
deriving Repr, DecidableEq

/-- The non-null `res` argument of `onResponse`: either an SSE data string
or a `{ headers?, body? }` object.  `headers = none` models an absent,
null or non-object `headers` field; `body = none` models an absent,
`undefined` or `null` body (the source guards with
`"body" in output && (output.body ?? undefined) !== undefined`). -/
inductive RespOut
| str (s : String)
| obj (headers : Option (List (String × String))) (body : Option Jval)
deriving Repr, DecidableEq

/-- Header-merge loop of `onResponse`:
`for (const key in output.headers) res.setHeader(key, ...)`. -/
def hdrActs : Option (List (String × String)) → List ResAction
| none => []
| some hs => hs.map fun kv => ResAction.setHeader kv.1 kv.2

/-- Content-type negotiation of `onResponse`: find the first key of
`output.headers ?? \x7b\x7d` whose lower-casing is `content-type`, read
`headers[key ?? ""] ?? "application/json"`, and test its lower-casing
against `application/json`.  `true` means the body is sent verbatim. -/
def nonJsonCT (headers : Option (List (String × String))) : Bool :=
  let hs := headers.getD []
  let key? := (hs.map Prod.fst).find? fun k => lowerStr k = "content-type"
  let val :=
    match key? with
    | some k => (lookupHdr hs k).getD "application/json"
    | none => (lookupHdr hs "").getD "application/json"
  lowerStr val != "application/json"

/-- Preamble written by `onExecution` for `sse` builds before the first
event (`no-cache`, `text/event-stream`, CORS, `keep-alive`, flush). -/
def ssePreamble : List ResAction :=
  [ResAction.setHeader "Cache-Control" "no-cache",
   ResAction.setHeader "Content-Type" "text/event-stream",
   ResAction.setHeader "Access-Control-Allow-Origin" "*",
   ResAction.setHeader "Connection" "keep-alive",
   ResAction.flushHeaders]

/-- Response writes of the `onExecution` hook. -/
def onExecution (closed : Bool) (ep : Endpoint) : List ResAction :=
  if closed then []
  else if ep = Endpoint.sse then ssePreamble
  else []

/-- Response writes of the `onResponse` hook when `output === null`
(a lifecycle stage failed); `err` is the value returned by the
user-supplied `onError` normalizer. -/
def onResponseErr (closed : Bool) (ep : Endpoint) (err : OnErrorResult) :
    List ResAction :=
  if closed then []
  else if ep = Endpoint.sse then []
  else
    (err.headers.map fun kv => ResAction.setHeader kv.1 kv.2) ++
      [ResAction.status err.status, ResAction.json err.body]

/-- Response writes of the `onResponse` hook on a non-null output: an SSE
data string becomes one framed event `data: JSON.stringify(output)\n\n`;
an object merges headers and, when a body is present, writes status 200
and the negotiated body representation. -/
def onResponseOut (closed : Bool) (out : RespOut) : List ResAction :=
  if closed then []
  else
    match out with
    | RespOut.str s =>
        [ResAction.write ("data: " ++ jsonStr s ++ "\n\n")]
    | RespOut.obj hs body =>
        hdrActs hs ++
          (match body with
           | some b =>
               [ResAction.status 200,
                if nonJsonCT hs then ResAction.send b else ResAction.json b]
           | none => [])

/-- Response writes of the `onComplete` hook: only `sse` builds end the
response here. -/
def onComplete (closed : Bool) (ep : Endpoint) : List ResAction :=
  if closed then []
  else if ep = Endpoint.sse then [ResAction.resEnd]
  else []

/-- An observable event in a request's lifecycle.  `close` is the
transport's `close` event whose registered listener sets the per-request
`closed` flag; the remaining events are the lifecycle hook invocations
performed by the executor. -/
inductive LcEvent
| close
| statusStart
| statusComplete
| execution
| respErr (err : OnErrorResult)
| respOutput (out : RespOut)
| complete
deriving Repr, DecidableEq

/-- One lifecycle step: given the current `closed` flag and an event,
the new flag and the response writes the corresponding hook performs.
`onStatusChange` only logs and registers listeners, so it writes
nothing. -/
def stepEvent (ep : Endpoint) (closed : Bool) : LcEvent → Bool × List ResAction
| LcEvent.close => (true, [])
| LcEvent.statusStart => (closed, [])
| LcEvent.statusComplete => (closed, [])
| LcEvent.execution => (closed, onExecution closed ep)
| LcEvent.respErr e => (closed, onResponseErr closed ep e)
| LcEvent.respOutput o => (closed, onResponseOut closed o)
| LcEvent.complete => (closed, onComplete closed ep)

/-- Run a request lifecycle: process the events in order, threading the
`closed` flag, and collect every response write performed. -/
def runLc (ep : Endpoint) : Bool → List LcEvent → List ResAction
| _, [] => []
| closed, ev :: evs =>
    let s := stepEvent ep closed ev
    s.2 ++ runLc ep s.1 evs

end Lc

namespace ExpressHttpContext

/-- Shape returned by the `onError` normalizer handed to
`ExpressHttpContext`: `{ status, headers?, message }`. -/
structure ErrOut where
  status : Nat
  headers : Option (List (String × String))
  message : String
deriving Repr, DecidableEq

/-- `setResHeaders`: set each header on the response and record its name
in `exposedHeaders`, in insertion order.  Returns the updated
`exposedHeaders` list and the writes performed. -/
def setResHeaders (exposed : List String) (headers : List (String × String)) :
    List String × List ResAction :=
  (exposed ++ headers.map Prod.fst,
   headers.map fun kv => ResAction.setHeader kv.1 kv.2)

/-- A sequence of `setResHeaders` calls performed by middleware and
handler stages, starting from the given `exposedHeaders` state. -/
def applyBatches : List String → List (List (String × String)) →
    List String × List ResAction
| exposed, [] => (exposed, [])
| exposed, hs :: rest =>
    let s := setResHeaders exposed hs
    let r := applyBatches s.1 rest
    (r.1, s.2 ++ r.2)

/-- `endWithData`: the terminal write of a successful single-response
request — permissive CORS, the exposure list when any header was set,
status 200, then JSON or verbatim body by exact content-type match. -/
def endWithData (exposed : List String) (contentType : String)
    (content : Jval) : List ResAction :=
  [ResAction.setHeader "Access-Control-Allow-Origin" "*"]
    ++ (if exposed.isEmpty then []
        else [ResAction.setHeader "Access-Control-Expose-Headers"
                (String.intercalate ", " exposed)])
    ++ [ResAction.status 200]
    ++ (if contentType = "application/json" then [ResAction.json content]
        else [ResAction.send content])
    ++ [ResAction.resEnd]

/-- A whole successful single-response lifecycle on the class-based
context: every `setResHeaders` batch in order, then `endWithData` with
the accumulated `exposedHeaders`. -/
def successRun (batches : List (List (String × String)))
    (contentType : String) (content : Jval) : List ResAction :=
  let s := applyBatches [] batches
  s.2 ++ endWithData s.1 contentType content

/-- `endedWithError`: the `try` block calls the user normalizer and writes
its representation; the `catch` block replaces any error raised while
normalizing with the fixed fallback `500` / `"Unknown Server Error!"`.
The `Except` argument is the outcome of the `this.onError(err)` call. -/
def endedWithError (r : Except String ErrOut) : List ResAction :=
  match r with
  | Except.ok e =>
      (match e.headers with
       | some hs => hs.map fun kv => ResAction.setHeader kv.1 kv.2
       | none => []) ++
        [ResAction.status e.status, ResAction.json (Jval.str e.message)]
  | Except.error _ =>
      [ResAction.status 500, ResAction.json (Jval.str "Unknown Server Error!")]

end ExpressHttpContext

namespace ExpressSseContext

/-- Headers established by the `ExpressSseContext` constructor before any
event is produced, committing the stream preamble to the wire. -/
def preambleActs : List ResAction :=
  [ResAction.setHeader "Cache-Control" "no-cache",
   ResAction.setHeader "Content-Type" "text/event-stream",
   ResAction.setHeader "Access-Control-Allow-Origin" "*",
   ResAction.setHeader "Connection" "keep-alive",
   ResAction.flushHeaders]

/-- `send`: one framed event per produced item, flushed immediately. -/
def send (data : String) : List ResAction :=
  [ResAction.write ("data: " ++ data ++ "\n\n"), ResAction.flush]

/-- `endedWithError`: serialize the normalized error as one final framed
event, flush, and end the stream. -/
def endedWithError {α : Type} (onError : α → String) (err : α) :
    List ResAction :=
  [ResAction.write ("data: " ++ onError err ++ "\n\n"), ResAction.flush,
   ResAction.resEnd]

/-- `endedWithSuccess`: close the stream with no terminal frame. -/
def endedWithSuccess : List ResAction :=
  [ResAction.resEnd]

/-- A stream whose producer yields `datas` after the preamble and then
raises: the constructor's preamble, one frame per item, then the error
path. -/
def runWithError {α : Type} (datas : List String) (onError : α → String)
    (err : α) : List ResAction :=
  preambleActs ++ datas.flatMap send ++ endedWithError onError err

end ExpressSseContext

/-- Declared type of one path parameter in the request-path schema: a
`ZodEnum` (with the keys of its `enum` object), a `ZodNumber`, or any
other schema type. -/
inductive ZType
| zenum (members : List String)
| znum
| zother
deriving Repr, DecidableEq

/-- Property lookup `schema.shape[x]` on the shape of a `ZodObject`. -/
def lookupZ : List (String × ZType) → String → Option ZType
| [], _ => none
| (k, t) :: rest, x => if k = x then some t else lookupZ rest x

/-- Replacement for one `\x7bname\x7d` placeholder: an enum parameter
becomes `:name(m1|m2|...)`, a number parameter becomes `:name(\d+)`, and
any other (or missing) schema — including a request-path schema that is
not a `ZodObject`, modelled as `none` — becomes the unconstrained
capture `:name`. -/
def replParam (schema : Option (List (String × ZType))) (x : String) : String :=
  match schema with
  | none => ":" ++ x
  | some shape =>
      match lookupZ shape x with
      | some (ZType.zenum ms) =>
          ":" ++ x ++ "(" ++ String.intercalate "|" ms ++ ")"
      | some ZType.znum => ":" ++ x ++ "(\\d+)"
      | _ => ":" ++ x

/-- Left-to-right, non-overlapping rewriting of every
`\x7b([^\x7d]+)\x7d` match, as performed by
`path.replace(/\x7b([^\x7d]+)\x7d/g, ...)`, as a one-pass scanner.
With mode `none` the scanner is outside a candidate match and copies
characters; an opening brace enters mode `some acc`, which collects the
(reversed) run of non-closing-brace characters.  A closing brace after a
non-empty run completes a match and substitutes the replacement; an
immediate closing brace or the end of input is a failed match, emitted
literally (the collected run contains no closing brace, so rescanning it
cannot produce a match). -/
def scanGo (repl : String → String) : List Char → Option (List Char) → List Char
| [], none => []
| [], some acc => '{' :: acc.reverse
| c :: cs, none =>
    if c = '{' then scanGo repl cs (some [])
    else c :: scanGo repl cs none
| c :: cs, some acc =>
    if c = '}' then
      if acc.isEmpty then '{' :: '}' :: scanGo repl cs none
      else (repl (String.mk acc.reverse)).data ++ scanGo repl cs none
    else scanGo repl cs (some (c :: acc))

/-- The brace-placeholder rewrite of a whole character list. -/
def scanBraces (repl : String → String) (l : List Char) : List Char :=
  scanGo repl l none

/-- `pathParser`: rewrite a brace-style path template into Express
capture syntax, tightening each placeholder with the request-path
schema when one is declared. -/
def pathParser (path : String) (schema : Option (List (String × ZType))) :
    String :=
  String.mk (scanBraces (replParam schema) path.data)

/-- Runtime tag of a route build's node: `R.FuncHttp`, `R.FuncSse`, or
any other value (the unknown-kind case). -/
inductive NodeKind
| http
| sse
| other
deriving Repr, DecidableEq

/-- A route build as `serve` consumes it: node kind, `docsOrder` key,
path templates, methods, and the request-path schema for `pathParser`. -/
structure Build where
  kind : NodeKind
  docsOrder : Int
  paths : List String
  methods : List String
  reqPath : Option (List (String × ZType))
deriving Repr, DecidableEq

/-- Registrations performed for one build: for each path, for each
method, bind the translated path under that method. -/
def routeRegs (b : Build) : List (String × String) :=
  b.paths.flatMap fun p => b.methods.map fun m => (m, pathParser p b.reqPath)

/-- The `Object.values(bundle).sort((x, y) => x.node.docsOrder -
y.node.docsOrder)` step: a stable sort by `docsOrder` (JavaScript's
`Array.prototype.sort` is stable), applied to the bundle's values in key
insertion order. -/
def sortByDocsOrder (l : List Build) : List Build :=
  l.insertionSort fun a b => a.docsOrder ≤ b.docsOrder

/-- Registration loop of `serve` over the sorted builds: an `http` build
requires the `onHttpError` option, an `sse` build requires `onSseError`,
and any other node kind raises `Unknown Build type found.`; a raised
error aborts registration and no router is produced. -/
def serveGo (hasHttpError hasSseError : Bool) :
    List Build → Except String (List (String × String))
| [] => Except.ok []
| b :: rest =>
    match b.kind with
    | NodeKind.http =>
        if hasHttpError then
          match serveGo hasHttpError hasSseError rest with
          | Except.ok regs => Except.ok (routeRegs b ++ regs)
          | Except.error e => Except.error e
        else Except.error "Need [onHttpError] for the http routes."
    | NodeKind.sse =>
        if hasSseError then
          match serveGo hasHttpError hasSseError rest with
          | Except.ok regs => Except.ok (routeRegs b ++ regs)
          | Except.error e => Except.error e
        else Except.error "Need [onSseError] for the http routes."
    | NodeKind.other => Except.error "Unknown Build type found."

/-- `serve`: sort the bundle's builds by `docsOrder`, then register each
build's translated paths under each of its methods; the result is the
ordered registration list of the produced router, or the raised error. -/
def serve (hasHttpError hasSseError : Bool) (bundle : List Build) :
    Except String (List (String × String)) :=
  serveGo hasHttpError hasSseError (sortByDocsOrder bundle)

/-- Accumulator step for the final value a response header carries on
the wire: a later `res.setHeader` for the same name overwrites an
earlier one (transport semantics). -/
def updAcc (name : String) (acc : Option String) (a : ResAction) :
    Option String :=
  match a with
  | ResAction.setHeader k v => if k = name then some v else acc
  | _ => acc

/-- The value a header name ends up carrying after a trace of response
actions: the value of the last `setHeader` for that name, if any. -/
def lastSetHeader (acts : List ResAction) (name : String) : Option String :=
  acts.foldl (updAcc name) none

/-- Two http builds with the same `docsOrder` key and different paths,
exercising the tie case of the bundle sort. -/
def buildTieA : Build :=
  ⟨NodeKind.http, 0, ["/a"], ["get"], none⟩

/-- Second build of the `docsOrder` tie pair. -/
def buildTieB : Build :=
  ⟨NodeKind.http, 0, ["/b"], ["get"], none⟩

/-- Two http builds with distinct `docsOrder` keys. -/
def buildOrd1 : Build :=
  ⟨NodeKind.http, 1, ["/a"], ["get"], none⟩

/-- Second build of the distinct-`docsOrder` pair. -/
def buildOrd2 : Build :=
  ⟨NodeKind.http, 2, ["/b"], ["get"], none⟩

namespace Lc

/-- Once the `closed` flag is observed `true`, every remaining lifecycle
stage is a no-op on the response: the run of any event suffix from the
closed state performs no write at all. -/
theorem runLc_closed (ep : Endpoint) :
    ∀ evs : List LcEvent, runLc ep true evs = [] := by
  intro evs
  induction evs with
  | nil => rfl
  | cons ev evs ih =>
      cases ev <;>
        simp [runLc, stepEvent, onExecution, onResponseErr, onResponseOut,
          onComplete, ih]

/-- Events processed after the close event contribute no writes,
regardless of the flag state the close event is reached in. -/
theorem runLc_append_close (ep : Endpoint) (post : List LcEvent) :
    ∀ (pre : List LcEvent) (st : Bool),
      runLc ep st (pre ++ LcEvent.close :: post) = runLc ep st pre := by
  intro pre
  induction pre with
  | nil =>
      intro st
      simp [runLc, stepEvent, runLc_closed]
  | cons ev pre ih =>
      intro st
      simp only [List.cons_append, runLc, List.append_eq, ih]

end Lc

/-- Claim C1: for every request, once the cancellation flag (the
per-request closed state, set by the transport's close event) is set, no
subsequent lifecycle stage performs any header write, body write, or
stream frame write on the response, no matter how many lifecycle stages
remain: the action trace of a run whose events contain the close event
equals the trace of the events before it. -/
theorem c1_no_write_after_close (ep : Lc.Endpoint)
    (pre post : List Lc.LcEvent) :
    Lc.runLc ep false (pre ++ Lc.LcEvent.close :: post) =
      Lc.runLc ep false pre :=
  Lc.runLc_append_close ep post pre false

/-- Claim C4, counterexample: a single-response lifecycle whose handler
succeeds with no headers and an absent body performs no write at all —
in particular no status-200 write and no terminal write — contradicting
the claim that an empty success response with status 200 is emitted. -/
theorem c4_absent_body_counterexample :
    Lc.runLc Lc.Endpoint.http false
        [Lc.LcEvent.statusStart, Lc.LcEvent.execution,
         Lc.LcEvent.respOutput (Lc.RespOut.obj (some []) none),
         Lc.LcEvent.complete, Lc.LcEvent.statusComplete] = [] ∧
      ResAction.status 200 ∉
        Lc.runLc Lc.Endpoint.http false
          [Lc.LcEvent.statusStart, Lc.LcEvent.execution,
           Lc.LcEvent.respOutput (Lc.RespOut.obj (some []) none),
           Lc.LcEvent.complete, Lc.LcEvent.statusComplete] := by
  constructor
  · rfl
  · simp [Lc.runLc, Lc.stepEvent, Lc.onExecution, Lc.onResponseOut,
      Lc.onComplete, Lc.hdrActs]

/-- Claim C4, amended: for every single-response endpoint whose handler
succeeds with an absent body, `onResponse` merges the returned headers
but performs no status write, no body write and no terminal write — the
run's whole trace is exactly the header merges, every one of them a
`setHeader`. -/
theorem c4_absent_body_amended (hs : Option (List (String × String))) :
    Lc.runLc Lc.Endpoint.http false
        [Lc.LcEvent.statusStart, Lc.LcEvent.execution,
         Lc.LcEvent.respOutput (Lc.RespOut.obj hs none),
         Lc.LcEvent.complete, Lc.LcEvent.statusComplete] = Lc.hdrActs hs ∧
      (Lc.hdrActs hs).all ResAction.isSetHeader = true := by
  constructor
  · simp [Lc.runLc, Lc.stepEvent, Lc.onExecution, Lc.onResponseOut,
      Lc.onComplete]
  · cases hs with
    | none => rfl
    | some l =>
        simp only [Lc.hdrActs, List.all_eq_true]
        intro x hx
        rcases List.mem_map.mp hx with ⟨kv, _, rfl⟩
        rfl

namespace Lc

/-- Frames of a run of SSE data outputs: one `res.write` per item,
in production order, followed by the writes of the remaining events. -/
theorem runLc_sse_items (items : List String) (tailEvs : List LcEvent) :
    runLc Endpoint.sse false
        ((items.map fun s => LcEvent.respOutput (RespOut.str s)) ++ tailEvs) =
      (items.map fun s =>
          ResAction.write ("data: " ++ jsonStr s ++ "\n\n")) ++
        runLc Endpoint.sse false tailEvs := by
  induction items with
  | nil => rfl
  | cons s items ih =>
      simp [runLc, stepEvent, onResponseOut, ih]

end Lc

/-- Claim C6: for every stream endpoint whose producer yields a finite
sequence of items and ends normally, each item produces exactly one
framed event `data: ` ++ JSON-serialization of the item ++ `\n\n`, the
frames are written in production order after the streaming preamble, and
then the stream is closed (`res.end()`) with no terminal frame and no
further writes. -/
theorem c6_stream_success_frames (items : List String) :
    Lc.runLc Lc.Endpoint.sse false
        (Lc.LcEvent.statusStart :: Lc.LcEvent.execution ::
          ((items.map fun s => Lc.LcEvent.respOutput (Lc.RespOut.str s)) ++
            [Lc.LcEvent.complete, Lc.LcEvent.statusComplete])) =
      Lc.ssePreamble ++
        (items.map fun s =>
          ResAction.write ("data: " ++ jsonStr s ++ "\n\n")) ++
        [ResAction.resEnd] := by
  simp [Lc.runLc, Lc.stepEvent, Lc.onExecution, Lc.onComplete,
    Lc.runLc_sse_items]

/-- Claim C2: for every stream endpoint whose producer raises after the
stream has been opened (preamble sent, any number of data frames
written), the error handling writes exactly one final framed event
containing the normalized error representation (exactly one `res.write`,
carrying `data: ` ++ normalizer output ++ `\n\n`) and then closes the
stream, performing no status-line write and no header write. -/
theorem c2_stream_error_final_frame {α : Type} (onError : α → String)
    (err : α) (datas : List String) :
    ExpressSseContext.runWithError datas onError err =
        ExpressSseContext.preambleActs ++
          datas.flatMap ExpressSseContext.send ++
          [ResAction.write ("data: " ++ onError err ++ "\n\n"),
           ResAction.flush, ResAction.resEnd] ∧
      (ExpressSseContext.endedWithError onError err).countP
          ResAction.isWrite = 1 ∧
      (ExpressSseContext.endedWithError onError err).all
          (fun a => !a.isSetHeader && !a.isStatus) = true ∧
      (ExpressSseContext.endedWithError onError err).getLast? =
        some ResAction.resEnd := by
  refine ⟨rfl, rfl, rfl, rfl⟩

/-- Claim C5: for every error value and every user-supplied normalizer,
an error raised while producing the error representation never
propagates: `endedWithError` is total and, whenever the normalizer call
raises, it answers with the fixed fallback — status 500 and the generic
body `Unknown Server Error!`. -/
theorem c5_normalizer_failure_fallback {α : Type}
    (onError : α → Except String ExpressHttpContext.ErrOut) (err : α)
    (msg : String) (h : onError err = Except.error msg) :
    ExpressHttpContext.endedWithError (onError err) =
      [ResAction.status 500,
       ResAction.json (Jval.str "Unknown Server Error!")] := by
  rw [h]
  rfl

/-- Witness for C5 at a concrete always-raising normalizer. -/
theorem c5_normalizer_failure_fallback_witness :
    ExpressHttpContext.endedWithError
        ((fun _ : Nat => Except.error "normalizer raised") 0) =
      [ResAction.status 500,
       ResAction.json (Jval.str "Unknown Server Error!")] :=
  c5_normalizer_failure_fallback (fun _ : Nat => Except.error "normalizer raised")
    0 "normalizer raised" rfl

/-- `object[key]` lookup of the first association whose key satisfies a
predicate on keys alone: looking the found key back up returns that
association's value. -/
theorem lookupHdr_find_fst (p : String → Bool) :
    ∀ (hs : List (String × String)) (kv : String × String),
      hs.find? (fun x => p x.1) = some kv → lookupHdr hs kv.1 = some kv.2 := by
  intro hs
  induction hs with
  | nil => intro kv h; cases h
  | cons a t ih =>
      intro kv h
      cases hpa : p a.1 with
      | true =>
          simp only [List.find?_cons, hpa] at h
          cases h
          simp [lookupHdr]
      | false =>
          simp only [List.find?_cons, hpa] at h
          have hk0 := List.find?_some h
          have hk : p kv.1 = true := hk0
          have hne : a.1 ≠ kv.1 := by
            intro hEq
            rw [hEq, hk] at hpa
            cases hpa
          simp [lookupHdr, hne, ih kv h]

/-- When no key of the association list equals `x`, lookup misses. -/
theorem lookupHdr_none (x : String) :
    ∀ hs : List (String × String),
      (∀ kv ∈ hs, kv.1 ≠ x) → lookupHdr hs x = none := by
  intro hs
  induction hs with
  | nil => intro _; rfl
  | cons a t ih =>
      intro h
      have ha : a.1 ≠ x := h a (List.mem_cons_self a t)
      simp [lookupHdr, ha]
      exact ih fun kv hkv => h kv (List.mem_cons_of_mem a hkv)

/-- The content-type test of `onResponse` agrees with the direct reading
of the specification: the first header whose name lower-cases to
`content-type` decides, and its value is compared (lower-cased) to the
JSON media type; with no such header the body is JSON (provided no
header has the empty name, which the transport would reject before this
code runs). -/
theorem nonJsonCT_eq_find (hs : List (String × String))
    (hne : ∀ kv ∈ hs, kv.1 ≠ "") :
    Lc.nonJsonCT (some hs) =
      match hs.find? fun kv => lowerStr kv.1 = "content-type" with
      | some kv => lowerStr kv.2 != "application/json"
      | none => false := by
  unfold Lc.nonJsonCT
  simp only [Option.getD_some]
  rw [List.find?_map Prod.fst hs]
  cases hfind : hs.find? fun kv => lowerStr kv.1 = "content-type" with
  | none =>
      have h2 : hs.find? ((fun k => decide (lowerStr k = "content-type")) ∘
          Prod.fst) = none := hfind
      rw [h2]
      simp [lookupHdr_none "" hs hne]
      decide
  | some kv =>
      have h2 : hs.find? ((fun k => decide (lowerStr k = "content-type")) ∘
          Prod.fst) = some kv := hfind
      rw [h2]
      simp [lookupHdr_find_fst (fun k => lowerStr k = "content-type") hs kv hfind]

/-- Claim C3: for every single-response endpoint whose handler succeeds
with a present body, the body is serialized as JSON unless a
content-type header was explicitly set (matched case-insensitively on
the name) to a value other than the JSON media type (compared
case-insensitively), in which case the body is sent verbatim
(`res.send`) under the headers already set.  The hypothesis excludes the
empty header name, which the transport rejects before this code can
run. -/
theorem c3_content_negotiation (hs : List (String × String)) (b : Jval)
    (hne : ∀ kv ∈ hs, kv.1 ≠ "") :
    Lc.runLc Lc.Endpoint.http false
        [Lc.LcEvent.statusStart, Lc.LcEvent.execution,
         Lc.LcEvent.respOutput (Lc.RespOut.obj (some hs) (some b)),
         Lc.LcEvent.complete, Lc.LcEvent.statusComplete] =
      Lc.hdrActs (some hs) ++
        [ResAction.status 200,
         match hs.find? fun kv => lowerStr kv.1 = "content-type" with
         | some kv =>
             if lowerStr kv.2 = "application/json" then ResAction.json b
             else ResAction.send b
         | none => ResAction.json b] := by
  have hrun : Lc.runLc Lc.Endpoint.http false
      [Lc.LcEvent.statusStart, Lc.LcEvent.execution,
       Lc.LcEvent.respOutput (Lc.RespOut.obj (some hs) (some b)),
       Lc.LcEvent.complete, Lc.LcEvent.statusComplete] =
      Lc.onResponseOut false (Lc.RespOut.obj (some hs) (some b)) := by
    simp [Lc.runLc, Lc.stepEvent, Lc.onExecution, Lc.onComplete]
  rw [hrun]
  show Lc.hdrActs (some hs) ++
      [ResAction.status 200,
       if Lc.nonJsonCT (some hs) then ResAction.send b
       else ResAction.json b] = _
  rw [nonJsonCT_eq_find hs hne]
  cases hfind : hs.find? fun kv => lowerStr kv.1 = "content-type" with
  | none => simp
  | some kv =>
      by_cases hjson : lowerStr kv.2 = "application/json" <;> simp [hjson]

/-- Witness for C3 at a concrete non-JSON content type: the body is sent
verbatim. -/
theorem c3_content_negotiation_witness :
    Lc.runLc Lc.Endpoint.http false
        [Lc.LcEvent.statusStart, Lc.LcEvent.execution,
         Lc.LcEvent.respOutput
           (Lc.RespOut.obj (some [("Content-Type", "text/plain")])
             (some (Jval.str "hello"))),
         Lc.LcEvent.complete, Lc.LcEvent.statusComplete] =
      [ResAction.setHeader "Content-Type" "text/plain",
       ResAction.status 200, ResAction.send (Jval.str "hello")] := by
  have h := c3_content_negotiation [("Content-Type", "text/plain")]
    (Jval.str "hello") (by decide)
  rw [h]
  decide

namespace ExpressHttpContext

/-- The `exposedHeaders` state after a sequence of `setResHeaders` calls
is the initial state followed by every batch's header names, in
insertion order. -/
theorem applyBatches_fst :
    ∀ (batches : List (List (String × String))) (exposed : List String),
      (applyBatches exposed batches).1 =
        exposed ++ batches.flatMap fun hs => hs.map Prod.fst := by
  intro batches
  induction batches with
  | nil => intro exposed; simp [applyBatches]
  | cons hs rest ih =>
      intro exposed
      simp [applyBatches, setResHeaders, ih]

/-- The writes of a sequence of `setResHeaders` calls are exactly one
`setHeader` per given header, in order, independent of the accumulated
state. -/
theorem applyBatches_snd :
    ∀ (batches : List (List (String × String))) (exposed : List String),
      (applyBatches exposed batches).2 =
        batches.flatMap fun hs =>
          hs.map fun kv => ResAction.setHeader kv.1 kv.2 := by
  intro batches
  induction batches with
  | nil => intro exposed; simp [applyBatches]
  | cons hs rest ih =>
      intro exposed
      simp [applyBatches, setResHeaders, ih]

/-- Folding the header-value accumulator for `Access-Control-Allow-Origin`
over the terminal write always ends at `*`. -/
theorem endWithData_fold_acao (acc : Option String) (exposed : List String)
    (ct : String) (content : Jval) :
    List.foldl (updAcc "Access-Control-Allow-Origin") acc
        (endWithData exposed ct content) = some "*" := by
  unfold endWithData
  by_cases he : exposed.isEmpty <;>
    by_cases hct : ct = "application/json" <;>
      simp [he, hct, List.foldl_append, updAcc]

/-- Folding the header-value accumulator for
`Access-Control-Expose-Headers` over the terminal write: set to the
comma-joined exposed names when any header was exposed, otherwise
untouched. -/
theorem endWithData_fold_aceh (acc : Option String) (exposed : List String)
    (ct : String) (content : Jval) :
    List.foldl (updAcc "Access-Control-Expose-Headers") acc
        (endWithData exposed ct content) =
      if exposed.isEmpty then acc
      else some (String.intercalate ", " exposed) := by
  unfold endWithData
  by_cases he : exposed.isEmpty <;>
    by_cases hct : ct = "application/json" <;>
      simp [he, hct, List.foldl_append, updAcc]

end ExpressHttpContext

/-- Claim C7: for every single-response endpoint that reaches the
successful terminal write, the response carries
`Access-Control-Allow-Origin: *` always, and carries
`Access-Control-Expose-Headers` if and only if at least one header was
explicitly set during the lifecycle, in which case its value is the
comma-joined explicitly-set header names in insertion order. -/
theorem c7_success_cors_headers (batches : List (List (String × String)))
    (ct : String) (content : Jval) :
    lastSetHeader (ExpressHttpContext.successRun batches ct content)
        "Access-Control-Allow-Origin" = some "*" ∧
      lastSetHeader (ExpressHttpContext.successRun batches ct content)
          "Access-Control-Expose-Headers" =
        (if (batches.flatMap fun hs => hs.map Prod.fst).isEmpty then none
         else some (String.intercalate ", "
           (batches.flatMap fun hs => hs.map Prod.fst))) := by
  have hfst := ExpressHttpContext.applyBatches_fst batches []
  rw [List.nil_append] at hfst
  constructor
  · unfold lastSetHeader ExpressHttpContext.successRun
    rw [List.foldl_append]
    exact ExpressHttpContext.endWithData_fold_acao _ _ ct content
  · unfold lastSetHeader ExpressHttpContext.successRun
    rw [List.foldl_append]
    rw [ExpressHttpContext.endWithData_fold_aceh]
    rw [hfst]
    by_cases he : (batches.flatMap fun hs => hs.map Prod.fst).isEmpty
    · rw [if_pos he, if_pos he]
      have hb : ∀ hs ∈ batches, hs.map Prod.fst = [] :=
        List.flatMap_eq_nil_iff.mp (List.isEmpty_iff.mp he)
      have hnil : (ExpressHttpContext.applyBatches [] batches).2 = [] := by
        rw [ExpressHttpContext.applyBatches_snd]
        rw [List.flatMap_eq_nil_iff]
        intro hs hhs
        have := List.map_eq_nil_iff.mp (hb hs hhs)
        simp [this]
      rw [hnil]
      rfl
    · rw [if_neg he, if_neg he]

/-- The registration loop raises `Unknown Build type found.` whenever the
(sorted) build list contains a build of unknown node kind and both error
handlers are supplied. -/
theorem serveGo_unknown_kind :
    ∀ l : List Build, (∃ b ∈ l, b.kind = NodeKind.other) →
      serveGo true true l = Except.error "Unknown Build type found." := by
  intro l
  induction l with
  | nil => rintro ⟨b, hb, _⟩; cases hb
  | cons b rest ih =>
      rintro ⟨c, hc, hck⟩
      cases hbk : b.kind with
      | other => simp [serveGo, hbk]
      | http =>
          have hcrest : c ∈ rest := by
            cases List.mem_cons.mp hc with
            | inl h => rw [h, hbk] at hck; cases hck
            | inr h => exact h
          simp [serveGo, hbk, ih ⟨c, hcrest, hck⟩]
      | sse =>
          have hcrest : c ∈ rest := by
            cases List.mem_cons.mp hc with
            | inl h => rw [h, hbk] at hck; cases hck
            | inr h => exact h
          simp [serveGo, hbk, ih ⟨c, hcrest, hck⟩]

/-- Claim C8: for every bundle containing a route build whose endpoint
kind is neither single-response (`http`) nor `sse`, route registration
(`serve`) fails at registration time by raising
`Unknown Build type found.` — no router value is produced, so no
per-request handling is ever attempted for that build. -/
theorem c8_unknown_kind_rejected (bundle : List Build)
    (h : ∃ b ∈ bundle, b.kind = NodeKind.other) :
    serve true true bundle = Except.error "Unknown Build type found." := by
  unfold serve
  apply serveGo_unknown_kind
  rcases h with ⟨b, hb, hk⟩
  exact ⟨b, ((List.perm_insertionSort _ bundle).mem_iff).mpr hb, hk⟩

/-- Witness for C8 at a concrete one-build bundle of unknown kind. -/
theorem c8_unknown_kind_rejected_witness :
    serve true true [⟨NodeKind.other, 0, ["/x"], ["get"], none⟩] =
      Except.error "Unknown Build type found." :=
  c8_unknown_kind_rejected [⟨NodeKind.other, 0, ["/x"], ["get"], none⟩]
    ⟨⟨NodeKind.other, 0, ["/x"], ["get"], none⟩, by decide, rfl⟩

/-- A template without an opening brace is returned unchanged by the
placeholder scanner. -/
theorem scanGo_no_brace (repl : String → String) :
    ∀ l : List Char, '{' ∉ l → scanGo repl l none = l := by
  intro l
  induction l with
  | nil => intro _; rfl
  | cons c cs ih =>
      intro h
      have hc : c ≠ '{' := fun hEq => h (hEq ▸ List.mem_cons_self c cs)
      have hcs : '{' ∉ cs := fun hm => h (List.mem_cons_of_mem c hm)
      simp [scanGo, hc, ih hcs]

/-- Inside a candidate placeholder, scanning the rest of a well-formed
placeholder completes the match: the collected run plus the remaining
name is substituted and scanning resumes after the closing brace. -/
theorem scanGo_inner (repl : String → String) :
    ∀ (name acc post : List Char), '}' ∉ name → acc.reverse ++ name ≠ [] →
      scanGo repl (name ++ '}' :: post) (some acc) =
        (repl (String.mk (acc.reverse ++ name))).data ++
          scanGo repl post none := by
  intro name
  induction name with
  | nil =>
      intro acc post _ hne
      have hacc : acc.isEmpty = false := by
        cases acc with
        | nil => simp at hne
        | cons a t => rfl
      simp [scanGo, hacc]
  | cons d name ih =>
      intro acc post hd hne
      have hdne : d ≠ '}' := fun hEq => hd (hEq ▸ List.mem_cons_self d name)
      have hdname : '}' ∉ name := fun hm => hd (List.mem_cons_of_mem d hm)
      have hrw : (d :: acc).reverse ++ name = acc.reverse ++ d :: name := by
        simp
      have hne2 : (d :: acc).reverse ++ name ≠ [] := by
        rw [hrw]
        intro hEq
        cases List.append_eq_nil.mp hEq with
        | intro h1 h2 => cases h2
      simp only [List.cons_append, scanGo]
      rw [if_neg hdne]
      show scanGo repl (name ++ '}' :: post) (some (d :: acc)) = _
      rw [ih (d :: acc) post hdname hne2, hrw]

/-- Full decomposition of one placeholder rewrite: literal text before
the placeholder is copied, the placeholder is substituted, and scanning
continues after it. -/
theorem scanGo_decomp (repl : String → String) :
    ∀ (pre name post : List Char), '{' ∉ pre → '}' ∉ name → name ≠ [] →
      scanGo repl (pre ++ '{' :: (name ++ '}' :: post)) none =
        pre ++ (repl (String.mk name)).data ++ scanGo repl post none := by
  intro pre
  induction pre with
  | nil =>
      intro name post _ h2 h3
      have := scanGo_inner repl name [] post h2 (by simpa using h3)
      simp only [List.nil_append, scanGo, if_pos rfl]
      simpa using this
  | cons c pre ih =>
      intro name post h1 h2 h3
      have hc : c ≠ '{' := fun hEq => h1 (hEq ▸ List.mem_cons_self c pre)
      have hpre : '{' ∉ pre := fun hm => h1 (List.mem_cons_of_mem c hm)
      simp only [List.cons_append, scanGo]
      rw [if_neg hc]
      show c :: scanGo repl (pre ++ '{' :: (name ++ '}' :: post)) none = _
      rw [ih name post hpre h2 h3]

/-- An enum-typed placeholder is replaced by an alternation of exactly
its literal members. -/
theorem replParam_enum (sh : Option (List (String × ZType))) (name : String)
    (ms : List String)
    (h : (sh.bind fun s => lookupZ s name) = some (ZType.zenum ms)) :
    replParam sh name = ":" ++ name ++ "(" ++ String.intercalate "|" ms ++ ")" := by
  cases sh with
  | none => cases h
  | some shape =>
      have hz : lookupZ shape name = some (ZType.zenum ms) := h
      simp only [replParam]
      rw [hz]

/-- A number-typed placeholder is replaced by the digits-only capture. -/
theorem replParam_num (sh : Option (List (String × ZType))) (name : String)
    (h : (sh.bind fun s => lookupZ s name) = some ZType.znum) :
    replParam sh name = ":" ++ name ++ "(\\d+)" := by
  cases sh with
  | none => cases h
  | some shape =>
      have hz : lookupZ shape name = some ZType.znum := h
      simp only [replParam]
      rw [hz]

/-- Any other (or missing) parameter schema yields the unconstrained
capture. -/
theorem replParam_other (sh : Option (List (String × ZType))) (name : String)
    (henum : ∀ ms, (sh.bind fun s => lookupZ s name) ≠ some (ZType.zenum ms))
    (hnum : (sh.bind fun s => lookupZ s name) ≠ some ZType.znum) :
    replParam sh name = ":" ++ name := by
  cases sh with
  | none => rfl
  | some shape =>
      simp only [replParam]
      cases hz : lookupZ shape name with
      | none => rfl
      | some t =>
          cases t with
          | zenum ms => exact absurd (by simpa [Option.bind] using hz) (henum ms)
          | znum => exact absurd (by simpa [Option.bind] using hz) hnum
          | zother => rfl

/-- Claim C9: for every path template and parameter schema, each
`\x7bname\x7d` placeholder is rewritten according to the declared
parameter type — an enumeration becomes a capture constrained to an
alternation of exactly its literal members, a number becomes a capture
constrained to all-digit segments, and any other (or missing) schema
yields the unconstrained capture — while non-placeholder text is
unchanged (both around a placeholder and in templates with no
placeholder at all). -/
theorem c9_placeholder_translation (sh : Option (List (String × ZType)))
    (pre name post : String)
    (h1 : '{' ∉ pre.data) (h2 : '}' ∉ name.data) (h3 : name.data ≠ []) :
    pathParser (pre ++ "\x7b" ++ name ++ "\x7d" ++ post) sh =
        pre ++ replParam sh name ++ pathParser post sh ∧
      (∀ ms, (sh.bind fun s => lookupZ s name) = some (ZType.zenum ms) →
        replParam sh name =
          ":" ++ name ++ "(" ++ String.intercalate "|" ms ++ ")") ∧
      ((sh.bind fun s => lookupZ s name) = some ZType.znum →
        replParam sh name = ":" ++ name ++ "(\\d+)") ∧
      ((∀ ms, (sh.bind fun s => lookupZ s name) ≠ some (ZType.zenum ms)) →
        (sh.bind fun s => lookupZ s name) ≠ some ZType.znum →
        replParam sh name = ":" ++ name) ∧
      (∀ p : String, '{' ∉ p.data → pathParser p sh = p) := by
  refine ⟨?_, ?_, ?_, ?_, ?_⟩
  · apply String.ext
    simp only [pathParser, String.data_append, scanBraces]
    simp only [List.append_assoc, List.singleton_append]
    rw [List.cons_append]
    rw [scanGo_decomp (replParam sh) pre.data name.data post.data h1 h2 h3]
    have hmk : String.mk name.data = name := rfl
    rw [hmk]
    simp [List.append_assoc]
  · intro ms h
    exact replParam_enum sh name ms h
  · intro h
    exact replParam_num sh name h
  · intro henum hnum
    exact replParam_other sh name henum hnum
  · intro p hp
    show String.mk (scanGo (replParam sh) p.data none) = p
    rw [scanGo_no_brace (replParam sh) p.data hp]

/-- Witness for C9 at a concrete template and number-typed parameter. -/
theorem c9_placeholder_translation_witness :
    pathParser ("/users/" ++ "\x7b" ++ "id" ++ "\x7d" ++ "/posts")
        (some [("id", ZType.znum)]) =
      "/users/" ++ replParam (some [("id", ZType.znum)]) "id" ++
        pathParser "/posts" (some [("id", ZType.znum)]) :=
  (c9_placeholder_translation (some [("id", ZType.znum)]) "/users/" "id"
    "/posts" (by decide) (by decide) (by decide)).1

/-- Claim C10, counterexample: two builds that tie on `docsOrder` are
registered in bundle key order — permuting the bundle's keys permutes
the registration order, so registration order is not independent of the
bundle object's key order. -/
theorem c10_key_order_counterexample :
    [buildTieA, buildTieB].Perm [buildTieB, buildTieA] ∧
      serve true true [buildTieA, buildTieB] =
        Except.ok [("get", "/a"), ("get", "/b")] ∧
      serve true true [buildTieB, buildTieA] =
        Except.ok [("get", "/b"), ("get", "/a")] ∧
      serve true true [buildTieA, buildTieB] ≠
        serve true true [buildTieB, buildTieA] := by
  refine ⟨by decide, by decide, by decide, by decide⟩

/-- The stable `docsOrder` sort is key-order independent precisely when
no two builds tie on `docsOrder`. -/
theorem sortByDocsOrder_eq_of_perm (l1 l2 : List Build) (hp : l1.Perm l2)
    (hnd : (l1.map Build.docsOrder).Nodup) :
    sortByDocsOrder l1 = sortByDocsOrder l2 := by
  haveI htot : IsTotal Build fun a b => a.docsOrder ≤ b.docsOrder :=
    ⟨fun a b => le_total _ _⟩
  haveI htrans : IsTrans Build fun a b => a.docsOrder ≤ b.docsOrder :=
    ⟨fun a b c h1 h2 => le_trans h1 h2⟩
  haveI hanti : IsAntisymm Build fun a b => a.docsOrder < b.docsOrder :=
    ⟨fun a b h1 h2 => absurd (lt_trans h1 h2) (lt_irrefl _)⟩
  have hsym : ∀ {x y : Build}, x.docsOrder ≠ y.docsOrder →
      y.docsOrder ≠ x.docsOrder := fun h => h.symm
  have hnd1 : l1.Pairwise fun a b => a.docsOrder ≠ b.docsOrder :=
    List.pairwise_map.mp hnd
  have hnd2 : l2.Pairwise fun a b => a.docsOrder ≠ b.docsOrder :=
    (hp.pairwise_iff hsym).mp hnd1
  have hperm1 := List.perm_insertionSort
    (fun a b : Build => a.docsOrder ≤ b.docsOrder) l1
  have hperm2 := List.perm_insertionSort
    (fun a b : Build => a.docsOrder ≤ b.docsOrder) l2
  have hs1 := List.sorted_insertionSort
    (fun a b : Build => a.docsOrder ≤ b.docsOrder) l1
  have hs2 := List.sorted_insertionSort
    (fun a b : Build => a.docsOrder ≤ b.docsOrder) l2
  have hpw1 : (sortByDocsOrder l1).Pairwise
      (fun a b => a.docsOrder ≠ b.docsOrder) :=
    (hperm1.pairwise_iff hsym).mpr hnd1
  have hpw2 : (sortByDocsOrder l2).Pairwise
      (fun a b => a.docsOrder ≠ b.docsOrder) :=
    (hperm2.pairwise_iff hsym).mpr hnd2
  have hlt1 : (sortByDocsOrder l1).Pairwise
      (fun a b => a.docsOrder < b.docsOrder) :=
    (hs1.and hpw1).imp fun h => lt_of_le_of_ne h.1 h.2
  have hlt2 : (sortByDocsOrder l2).Pairwise
      (fun a b => a.docsOrder < b.docsOrder) :=
    (hs2.and hpw2).imp fun h => lt_of_le_of_ne h.1 h.2
  have hp12 : (sortByDocsOrder l1).Perm (sortByDocsOrder l2) :=
    hperm1.trans (hp.trans hperm2.symm)
  exact List.eq_of_perm_of_sorted hp12 hlt1 hlt2

/-- Claim C10, amended: `serve` registers route builds in ascending order
of their `docsOrder` key (paths × methods in declared order inside each
build); ties on `docsOrder` preserve bundle key order, so the
registration order is independent of the bundle object's key order
whenever the `docsOrder` keys are pairwise distinct. -/
theorem c10_sorted_registration (l1 l2 : List Build) (hp : l1.Perm l2)
    (hnd : (l1.map Build.docsOrder).Nodup) (hh hs : Bool) :
    ((sortByDocsOrder l1).map Build.docsOrder).Sorted (· ≤ ·) ∧
      serve hh hs l1 = serve hh hs l2 := by
  constructor
  · haveI : IsTotal Build fun a b => a.docsOrder ≤ b.docsOrder :=
      ⟨fun a b => le_total _ _⟩
    haveI : IsTrans Build fun a b => a.docsOrder ≤ b.docsOrder :=
      ⟨fun a b c hab hbc => le_trans hab hbc⟩
    exact List.pairwise_map.mpr (List.sorted_insertionSort
      (fun a b : Build => a.docsOrder ≤ b.docsOrder) l1)
  · unfold serve
    rw [sortByDocsOrder_eq_of_perm l1 l2 hp hnd]

/-- Witness for the amended C10 at two concrete distinct-`docsOrder`
builds presented in opposite key orders. -/
theorem c10_sorted_registration_witness :
    serve true true [buildOrd2, buildOrd1] =
      serve true true [buildOrd1, buildOrd2] :=
  (c10_sorted_registration [buildOrd2, buildOrd1] [buildOrd1, buildOrd2]
    (by decide) (by decide) true true).2
